import Mathlib

/-!
Shallow embedding of the scraper-orchestration core of the
`faang-job-scraper` repository, together with proofs of the frozen claims
about it.  The embedding follows the Python sources:

* `src/scrapers/base_scraper.py` — `JobCategorizer` and `BaseScraper`
  (text cleanup, date parsing, job-type / experience-level / workplace-type
  inference, the per-item pipeline `_process_job_data`, and the template
  method `scrape_jobs`);
* `src/scrapers/scraper_factory.py` — `ScraperFactory`;
* `src/data/models.py` — the enumerations and the `Job` /
  `JobCategorizationResult` records.

Python strings are modelled as `String` / `List Char`, Python floats as `ℚ`
(the algorithms under study only add, multiply, divide and compare, and the
claims are robust under this standard identification), dictionaries as
association lists in insertion order, and exceptions as `Except` values.
-/

namespace JobScraper

/-! ## Character and string utilities

`pyLower` models Python `str.lower` (ASCII case folding suffices for the
configuration and listing texts of this repository).  `isPySpace` models
the character class matched by `str.isspace` / the regex `\s` on ASCII and
Latin-1 text, `isWordChar` the regex `\w`, `isDigitC` the regex `\d`. -/

def pyLower (cs : List Char) : List Char := cs.map Char.toLower

def pyLowerS (s : String) : String := String.mk (pyLower s.data)

def isPySpace (c : Char) : Bool :=
  c = ' ' || c = '\t' || c = '\n' || c = '\r' || c.val = 11 || c.val = 12 ||
  (28 ≤ c.val && c.val ≤ 31) || c.val = 133 || c.val = 160

def isWordChar (c : Char) : Bool := c.isAlphanum || c = '_'

def isDigitC (c : Char) : Bool := '0' ≤ c && c ≤ '9'

/-- Python `pat in text` (substring test), prefix part: does `p` occur at the
head of `cs`? -/
def isPrefL : List Char → List Char → Bool
  | [], _ => true
  | _ :: _, [] => false
  | p :: ps, c :: cs => p == c && isPrefL ps cs

/-- Python `pat in text`: does `pat` occur as a contiguous substring of
`text`?  (The empty pattern occurs in every text, as in Python.) -/
def isSubL (pat : List Char) : List Char → Bool
  | [] => pat.isEmpty
  | c :: cs => isPrefL pat (c :: cs) || isSubL pat cs

/-- Python `word in text` for a `String` pattern against an already
normalised character list. -/
def strIn (pat : String) (text : List Char) : Bool := isSubL pat.data text

/-- Python `any(word in text for word in words)`. -/
def hasAny (text : List Char) (words : List String) : Bool :=
  words.any (fun w => strIn w text)

/-- Python `s.split()` — split on whitespace runs, dropping empty pieces. -/
def pySplit (s : String) : List String :=
  ((s.data.splitOnP isPySpace).filter (fun w => ¬ w.isEmpty)).map String.mk

/-! ## `BaseScraper._clean_text` (base_scraper.py lines 397–411)

```python
if not text: return None
text = re.sub(r'\s+', ' ', text.strip())
text = re.sub(r'<[^>]+>', '', text)
text = re.sub(r'[\x00-\x1f\x7f-\x9f]', '', text)
return text if text else None
```
-/

/-- Python `str.strip()`. -/
def pyStrip (cs : List Char) : List Char :=
  ((cs.dropWhile isPySpace).reverse.dropWhile isPySpace).reverse

/-- Regex substitution `re.sub(r'\s+', ' ', ·)`: collapse every maximal
whitespace run to a single space. -/
def collapseWS : List Char → List Char
  | [] => []
  | [c] => if isPySpace c then [' '] else [c]
  | c :: c2 :: cs =>
    if isPySpace c then
      if isPySpace c2 then collapseWS (c2 :: cs) else ' ' :: collapseWS (c2 :: cs)
    else c :: collapseWS (c2 :: cs)

/-- Helper for tag stripping: split a character list at its first `'>'`,
returning the characters before it and the characters after it. -/
def splitAtGt : List Char → Option (List Char × List Char)
  | [] => none
  | c :: cs =>
    if c = '>' then some ([], cs)
    else match splitAtGt cs with
      | some (b, a) => some (c :: b, a)
      | none => none

theorem splitAtGt_length_lt : ∀ (cs b a : List Char),
    splitAtGt cs = some (b, a) → a.length < cs.length := by
  intro cs
  induction cs with
  | nil => intro b a h; simp [splitAtGt] at h
  | cons c cs ih =>
    intro b a h
    by_cases hc : c = '>'
    · simp [splitAtGt, hc] at h
      simp [← h.2]
    · simp only [splitAtGt, hc, if_false] at h
      cases hs : splitAtGt cs with
      | none => rw [hs] at h; simp at h
      | some p =>
        rw [hs] at h
        simp at h
        have := ih p.1 p.2 (by rw [hs])
        have ha : a = p.2 := by rw [← h.2]
        simp [ha, List.length_cons]
        omega

/-- Regex substitution `re.sub(r'<[^>]+>', '', ·)`: a match starts at a
`'<'`, spans at least one non-`'>'` character, and ends at the next `'>'`;
matches are removed left to right.  Recursion is by an explicit character
budget; `splitAtGt_length_lt` shows the budget `length cs` never runs out,
so the `0` fallback is unreachable. -/
def stripTagsF : Nat → List Char → List Char
  | 0, cs => cs
  | _ + 1, [] => []
  | fuel + 1, c :: cs =>
    if c = '<' then
      match splitAtGt cs with
      | some ([], _) => '<' :: stripTagsF fuel cs
      | some (_ :: _, after) => stripTagsF fuel after
      | none => '<' :: stripTagsF fuel cs
    else c :: stripTagsF fuel cs

def stripTags (cs : List Char) : List Char := stripTagsF cs.length cs

/-- Regex substitution `re.sub(r'[\x00-\x1f\x7f-\x9f]', '', ·)`. -/
def isCtlChar (c : Char) : Bool := c.val ≤ 31 || (127 ≤ c.val && c.val ≤ 159)

def stripCtl (cs : List Char) : List Char := cs.filter (fun c => ¬ isCtlChar c)

/-- The four-stage body of `_clean_text` on a non-empty string. -/
def cleanTextL (cs : List Char) : List Char :=
  stripCtl (stripTags (collapseWS (pyStrip cs)))

/-- `BaseScraper._clean_text` on an optional string argument (`None` and the
empty string are both falsy in `if not text`). -/
def cleanText : Option String → Option String
  | none => none
  | some s =>
    if s.data = [] then none
    else
      let t := cleanTextL s.data
      if t = [] then none else some (String.mk t)

/-- `_clean_text(raw_job.get(key, ""))`: a missing key defaults to `""`. -/
def cleanTextS (s : String) : Option String := cleanText (some s)

/-! ## Enumerations (data/models.py lines 12–68)

These list exactly the members declared in `src/data/models.py`.  Attribute
accesses in `base_scraper.py` that name a member *not* declared there
(`ExperienceLevel.UNKNOWN`, `ExperienceLevel.ENTRY_LEVEL`,
`ExperienceLevel.ASSOCIATE`, `ExperienceLevel.MID_LEVEL`,
`ExperienceLevel.PRINCIPAL`, `ExperienceLevel.C_LEVEL`,
`WorkplaceType.ON_SITE`) raise `AttributeError` at run time and are
modelled below as `Except` errors. -/

inductive CompanyName
  | META | AMAZON | APPLE | NETFLIX | GOOGLE
  deriving DecidableEq, Repr

inductive JobCategory
  | TECHNOLOGY | DATA | PRODUCT | DESIGN | SALES | MARKETING | OPERATIONS
  | FINANCE | HR | LEGAL | CUSTOMER_SUCCESS | CONSULTING | OTHER
  deriving DecidableEq, Repr

/-- The value-based constructor `JobCategory(value)`; `none` models the
`ValueError` raised on an unknown value. -/
def jobCategoryOfString : String → Option JobCategory
  | "technology" => some .TECHNOLOGY
  | "data" => some .DATA
  | "product" => some .PRODUCT
  | "design" => some .DESIGN
  | "sales" => some .SALES
  | "marketing" => some .MARKETING
  | "operations" => some .OPERATIONS
  | "finance" => some .FINANCE
  | "hr" => some .HR
  | "legal" => some .LEGAL
  | "customer_success" => some .CUSTOMER_SUCCESS
  | "consulting" => some .CONSULTING
  | "other" => some .OTHER
  | _ => none

inductive JobType
  | FULL_TIME | PART_TIME | CONTRACT | INTERNSHIP | TEMPORARY | FREELANCE
  deriving DecidableEq, Repr

inductive ExperienceLevel
  | ENTRY | MID | SENIOR | LEAD | DIRECTOR | EXECUTIVE
  deriving DecidableEq, Repr

inductive WorkplaceType
  | ONSITE | REMOTE | HYBRID | UNKNOWN
  deriving DecidableEq, Repr

/-- A Python exception value; only the kinds the embedded code can raise. -/
inductive PyErr
  | attributeError (missingMember : String)
  deriving DecidableEq, Repr

/-! ## `JobCategorizer` (base_scraper.py lines 38–160) -/

/-- One entry of the `job_categories` configuration dictionary
(`category_info.get("keywords", [])` / `.get("departments", [])`). -/
structure CatInfo where
  keywords : List String := []
  departments : List String := []
  deriving DecidableEq, Repr

/-- The `categorization_rules` configuration dictionary; each field models
`self.rules.get(key, default)` with the default of base_scraper.py. -/
structure CatRules where
  title_weight : ℚ := 6/10
  department_weight : ℚ := 3/10
  description_weight : ℚ := 1/10
  exact_match_bonus : ℚ := 2
  min_confidence_threshold : ℚ := 3/10
  deriving DecidableEq, Repr

/-- The three shapes of the `reasoning` f-strings produced by
`categorize_job`, kept structured instead of formatted. -/
inductive Reasoning
  | noKeywords
  | belowThreshold (confidence threshold : ℚ)
  | bestMatch (score : ℚ)
  deriving DecidableEq, Repr

/-- `JobCategorizationResult` (models.py lines 71–80), with the per-category
match-count dictionary as an association list. -/
structure JobCategorizationResult where
  category : JobCategory
  confidence : ℚ
  keyword_matches : List (String × Nat)
  department_match : Bool := false
  reasoning : Reasoning
  deriving DecidableEq, Repr

/-- `JobCategorizer._find_keyword_matches` (lines 143–160): the keyword is
appended on an exact (lower-cased) substring match, or — `elif`, only for
multi-word keywords — when every individual word occurs in the text. -/
def findKeywordMatches (text : List Char) : List String → List String
  | [] => []
  | k :: ks =>
    if strIn (pyLowerS k) text then k :: findKeywordMatches text ks
    else if (pySplit k).length > 1 && (pySplit k).all (fun w => strIn (pyLowerS w) text) then
      k :: findKeywordMatches text ks
    else findKeywordMatches text ks

/-- Score and combined match list of one category inside the
`for category_id, category_info in self.categories.items()` loop of
`categorize_job` (lines 62–94).  The combined list concatenates the
`matches` dictionary values in insertion order (title, description,
department); the exact-match bonus is added once per single-word match. -/
def categoryScore (rules : CatRules) (titleL descSample deptL : List Char)
    (info : CatInfo) : ℚ × List String :=
  let title_matches := findKeywordMatches titleL info.keywords
  let desc_matches := findKeywordMatches descSample info.keywords
  let dept_matches := findKeywordMatches deptL info.departments
  let combined := title_matches ++ desc_matches ++ dept_matches
  let score : ℚ :=
    title_matches.length * rules.title_weight
    + desc_matches.length * rules.description_weight * (1/2)
    + dept_matches.length * rules.department_weight
    + (combined.countP (fun m => (pySplit m).length == 1)) * rules.exact_match_bonus
  (score, combined)

/-- The `scores` and `keyword_matches` dictionaries of `categorize_job`
(only categories with `score > 0` are inserted, in iteration order). -/
def buildScores (rules : CatRules) (titleL descSample deptL : List Char) :
    List (String × CatInfo) → List (String × ℚ) × List (String × Nat)
  | [] => ([], [])
  | (cid, info) :: rest =>
    let sc := categoryScore rules titleL descSample deptL info
    let r := buildScores rules titleL descSample deptL rest
    if sc.1 > 0 then ((cid, sc.1) :: r.1, (cid, sc.2.length) :: r.2) else r

/-- Python `max(scores.items(), key=lambda x: x[1])`: the first maximal
entry in iteration order. -/
def maxBySnd : List (String × ℚ) → Option (String × ℚ)
  | [] => none
  | p :: ps => some (ps.foldl (fun best q => if q.2 > best.2 then q else best) p)

/-- Dictionary access in insertion order. -/
def assocLookup {β : Type} (k : String) : List (String × β) → Option β
  | [] => none
  | (k2, v) :: rest => if k2 = k then some v else assocLookup k rest

/-- Confidence normalisation of `categorize_job` (lines 109–111):
`min(best_score / max_possible_score, 1.0) if max_possible_score > 0 else
0.0`, where `max_possible_score` is the winning category's keyword count
times the title weight. -/
def confidenceOf (rules : CatRules) (kwCount : Nat) (best : ℚ) : ℚ :=
  if (kwCount : ℚ) * rules.title_weight > 0 then
    min (best / ((kwCount : ℚ) * rules.title_weight)) 1
  else 0

/-- `JobCategorizer.categorize_job` (lines 46–141). -/
def categorizeJob (cats : List (String × CatInfo)) (rules : CatRules)
    (title description : String) (department : Option String) :
    JobCategorizationResult :=
  let titleL := pyLower title.data
  let descL := pyLower description.data
  let deptL := pyLower ((department.getD "").data)
  let descSample := descL.take 500
  let sk := buildScores rules titleL descSample deptL cats
  match maxBySnd sk.1 with
  | none =>
    { category := .OTHER, confidence := 0, keyword_matches := sk.2,
      department_match := false, reasoning := .noKeywords }
  | some best =>
    let info := (assocLookup best.1 cats).getD {}
    let confidence : ℚ := confidenceOf rules info.keywords.length best.2
    if confidence < rules.min_confidence_threshold then
      { category := .OTHER, confidence := confidence, keyword_matches := sk.2,
        department_match := false,
        reasoning := .belowThreshold confidence rules.min_confidence_threshold }
    else
      let department_match :=
        if deptL ≠ [] then
          info.departments.any (fun d => isSubL (pyLower d.data) deptL)
        else false
      { category := (jobCategoryOfString best.1).getD .OTHER,
        confidence := confidence, keyword_matches := sk.2,
        department_match := department_match,
        reasoning := .bestMatch best.2 }

/-! ## Field inference helpers (base_scraper.py lines 453–513)

`_determine_job_type` only names members that exist in `models.JobType`,
so it is total.  `_determine_experience_level` and
`_determine_workplace_type` name several members missing from
`models.ExperienceLevel` / `models.WorkplaceType`; those branches are
embedded as `AttributeError` values. -/

/-- `BaseScraper._determine_job_type` (lines 453–466). -/
def determineJobType (title description : String) : JobType :=
  let text := pyLower (title.data ++ ' ' :: description.data)
  if hasAny text ["intern", "internship", "student"] then .INTERNSHIP
  else if hasAny text ["contract", "contractor", "temporary", "temp"] then .CONTRACT
  else if hasAny text ["part time", "part-time", "parttime"] then .PART_TIME
  else if hasAny text ["freelance", "freelancer", "consultant"] then .FREELANCE
  else .FULL_TIME

/-- Regex `\b` test for the position after a match: the rest of the text
must not start with a word character. -/
def notWordStart : List Char → Bool
  | [] => true
  | c :: _ => ¬ isWordChar c

/-- The `years?\b` tail shared by the experience regexes: after `year`, an
optional `s`, then a word boundary (both quantifier choices are tried, as
the regex engine backtracks). -/
def yearsTail (cs : List Char) : Bool :=
  (isPrefL "year".data cs) &&
    (match cs.drop 4 with
     | 's' :: rest => notWordStart rest || notWordStart (cs.drop 4)
     | rest => notWordStart rest)

/-- `\s*years?\b` starting at `cs`. -/
def spacesYears (cs : List Char) : Bool := yearsTail (cs.dropWhile isPySpace)

/-- Match `a-b\s*years?\b` at the head of `cs` (used for `\b0-2\s*years?\b`,
`\b2-4\s*years?\b`, `\b4-7\s*years?\b`). -/
def rangeYearsAt (a b : Char) : List Char → Bool
  | x :: '-' :: y :: rest => x = a && y = b && spacesYears rest
  | _ => false

/-- Match `d\+?\s*years?\b` at the head of `cs` (used for `\b7\+?\s*years?\b`
and `\b8\+?\s*years?\b`). -/
def plusYearsAt (d : Char) : List Char → Bool
  | x :: '+' :: rest => x = d && spacesYears rest
  | x :: rest => x = d && spacesYears rest
  | [] => false

/-- `re.search` of a pattern that begins at a word boundary `\b`: try every
position whose preceding character (if any) is not a word character. -/
def searchBoundary (matchAt : List Char → Bool) : Option Char → List Char → Bool
  | _, [] => false
  | prev, c :: cs =>
    ((match prev with | none => true | some p => ¬ isWordChar p) && matchAt (c :: cs))
      || searchBoundary matchAt (some c) cs

/-- `BaseScraper._determine_experience_level` (lines 468–498).  Branches that
reference members absent from `models.ExperienceLevel` are
`AttributeError`s carrying the missing member name. -/
def determineExperienceLevel (title description : String) :
    Except PyErr ExperienceLevel :=
  let text := pyLower (title.data ++ ' ' :: description.data)
  let title_lower := pyLower title.data
  if hasAny title_lower ["senior", "sr.", "lead", "staff"] then .ok .SENIOR
  else if hasAny title_lower ["junior", "jr.", "entry", "associate"] then
    if strIn "entry" title_lower then .error (.attributeError "ExperienceLevel.ENTRY_LEVEL")
    else .error (.attributeError "ExperienceLevel.ASSOCIATE")
  else if hasAny title_lower ["principal", "architect", "distinguished"] then
    .error (.attributeError "ExperienceLevel.PRINCIPAL")
  else if hasAny title_lower ["director", "head of", "vp", "vice president"] then
    .ok .DIRECTOR
  else if hasAny title_lower ["cto", "ceo", "cmo", "cfo", "chief"] then
    .error (.attributeError "ExperienceLevel.C_LEVEL")
  else if searchBoundary (rangeYearsAt '0' '2') none text || strIn "entry level" text then
    .error (.attributeError "ExperienceLevel.ENTRY_LEVEL")
  else if searchBoundary (rangeYearsAt '2' '4') none text then
    .error (.attributeError "ExperienceLevel.ASSOCIATE")
  else if searchBoundary (rangeYearsAt '4' '7') none text then
    .error (.attributeError "ExperienceLevel.MID_LEVEL")
  else if searchBoundary (plusYearsAt '7') none text || searchBoundary (plusYearsAt '8') none text then
    .ok .SENIOR
  else .error (.attributeError "ExperienceLevel.UNKNOWN")

/-- `BaseScraper._determine_workplace_type` (lines 500–513).  The on-site
branch references `WorkplaceType.ON_SITE`, which `models.WorkplaceType`
does not declare (it declares `ONSITE`), so it raises. -/
def determineWorkplaceType (location description : String) :
    Except PyErr WorkplaceType :=
  let text := pyLower (location.data ++ ' ' :: description.data)
  if hasAny text ["remote", "work from home", "telecommute", "distributed"] then
    if hasAny text ["hybrid", "flexible", "optional remote"] then .ok .HYBRID
    else .ok .REMOTE
  else if hasAny text ["hybrid", "flexible work", "remote optional"] then .ok .HYBRID
  else if hasAny text ["on-site", "onsite", "office", "in-person"] then
    .error (.attributeError "WorkplaceType.ON_SITE")
  else .ok .UNKNOWN

/-! ## `BaseScraper._parse_date` (base_scraper.py lines 413–451)

The five absolute patterns are matched with `re.search`; on a match the
matched text is handed to `dateutil.parser.parse`, an external library
modelled as an arbitrary partial function `duParse` (its exceptions are
`none`, matching the `try/except: continue`).  Only if no absolute pattern
produces a date are the relative-phrase patterns consulted; every relative
lambda returns `datetime.now().date()` — the captured `N` is ignored. -/

structure PyDate where
  year : Nat
  month : Nat
  day : Nat
  deriving DecidableEq, Repr

/-- Consume exactly `n` characters satisfying `p`, returning the remainder. -/
def eatCount (p : Char → Bool) : Nat → List Char → Option (List Char)
  | 0, cs => some cs
  | _ + 1, [] => none
  | n + 1, c :: cs => if p c then eatCount p n cs else none

/-- Consume one literal character. -/
def eatLit (l : Char) : List Char → Option (List Char)
  | [] => none
  | c :: cs => if c = l then some cs else none

/-- Matcher for `\d{4}-\d{2}-\d{2}` at the head of the text, returning the
remainder after the match, if any.  The matched text is the consumed part. -/
def matchISO (cs : List Char) : Option (List Char) := do
  let r ← eatCount isDigitC 4 cs
  let r ← eatLit '-' r
  let r ← eatCount isDigitC 2 r
  let r ← eatLit '-' r
  eatCount isDigitC 2 r

/-- Matcher for `\d{2}/\d{2}/\d{4}`. -/
def matchSlash (cs : List Char) : Option (List Char) := do
  let r ← eatCount isDigitC 2 cs
  let r ← eatLit '/' r
  let r ← eatCount isDigitC 2 r
  let r ← eatLit '/' r
  eatCount isDigitC 4 r

/-- Matcher for `\d{2}-\d{2}-\d{4}`. -/
def matchDash (cs : List Char) : Option (List Char) := do
  let r ← eatCount isDigitC 2 cs
  let r ← eatLit '-' r
  let r ← eatCount isDigitC 2 r
  let r ← eatLit '-' r
  eatCount isDigitC 4 r

/-- Matcher for `\w{3,9}\s+\d{1,2},?\s+\d{4}` (Month DD, YYYY).  Each
bounded greedy quantifier is followed by a token its own character class
cannot match, so the run lengths are forced and matching is
deterministic. -/
def matchMonthDY (cs : List Char) : Option (List Char) := do
  let w := cs.takeWhile isWordChar
  if 3 ≤ w.length && w.length ≤ 9 then
    let r := cs.drop w.length
    let sp := r.takeWhile isPySpace
    if sp.length ≥ 1 then
      let r := r.drop sp.length
      let d := r.takeWhile isDigitC
      if 1 ≤ d.length && d.length ≤ 2 then
        let r := r.drop d.length
        let r := match r with
          | ',' :: rest => rest
          | rest => rest
        let sp2 := r.takeWhile isPySpace
        if sp2.length ≥ 1 then
          let r := r.drop sp2.length
          eatCount isDigitC 4 r
        else none
      else none
    else none
  else none

/-- Matcher for `\d{1,2}\s+\w{3,9}\s+\d{4}` (DD Month YYYY). -/
def matchDMonthY (cs : List Char) : Option (List Char) := do
  let d := cs.takeWhile isDigitC
  if 1 ≤ d.length && d.length ≤ 2 then
    let r := cs.drop d.length
    let sp := r.takeWhile isPySpace
    if sp.length ≥ 1 then
      let r := r.drop sp.length
      let w := r.takeWhile isWordChar
      if 3 ≤ w.length && w.length ≤ 9 then
        let r := r.drop w.length
        let sp2 := r.takeWhile isPySpace
        if sp2.length ≥ 1 then
          let r := r.drop sp2.length
          eatCount isDigitC 4 r
        else none
      else none
    else none
  else none

/-- The ordered `date_patterns` list of `_parse_date`. -/
def dateMatchers : List (List Char → Option (List Char)) :=
  [matchISO, matchSlash, matchDash, matchMonthDY, matchDMonthY]

/-- `re.search` for the absolute patterns: scan positions left to right and
return the matched text (`match.group()`) of the leftmost match. -/
def searchPat (m : List Char → Option (List Char)) : List Char → Option (List Char)
  | [] =>
    match m [] with
    | some _ => some []
    | none => none
  | c :: cs =>
    match m (c :: cs) with
    | some rest => some ((c :: cs).take ((c :: cs).length - rest.length))
    | none => searchPat m cs

/-- The first `for pattern in date_patterns` loop: on a regex match, try
`dateutil.parser.parse(match.group()).date()`; on its failure, continue
with the next pattern. -/
def absolutePhase (duParse : String → Option PyDate) (cs : List Char) :
    List (List Char → Option (List Char)) → Option PyDate
  | [] => none
  | m :: ms =>
    match searchPat m cs with
    | some t =>
      match duParse (String.mk t) with
      | some d => some d
      | none => absolutePhase duParse cs ms
    | none => absolutePhase duParse cs ms

/-- Search for `(\d+)\s*<word>s?\s*ago` (the `days?`/`weeks?` relative
patterns) anywhere in the lower-cased text. -/
def matchRelAt (word : String) (cs : List Char) : Bool :=
  let d := cs.takeWhile isDigitC
  if d.length ≥ 1 then
    let r := (cs.drop d.length).dropWhile isPySpace
    if isPrefL word.data r then
      let r := r.drop word.data.length
      (match r with
       | 's' :: rest => isPrefL "ago".data (rest.dropWhile isPySpace)
           || isPrefL "ago".data (r.dropWhile isPySpace)
       | rest => isPrefL "ago".data (rest.dropWhile isPySpace))
    else false
  else false

def searchRel (word : String) : List Char → Bool
  | [] => false
  | c :: cs => matchRelAt word (c :: cs) || searchRel word cs

/-- The `relative_patterns` loop of `_parse_date`: each pattern, when found
in `date_str.lower()`, yields `datetime.now().date()` (the numeric delta is
never applied). -/
def relativePhase (today : PyDate) (cs : List Char) : Option PyDate :=
  let ls := pyLower cs
  if searchRel "day" ls then some today
  else if searchRel "week" ls then some today
  else if isSubL "yesterday".data ls then some today
  else if isSubL "today".data ls then some today
  else none

/-- `BaseScraper._parse_date` (lines 413–451). -/
def parseDate (duParse : String → Option PyDate) (today : PyDate) :
    Option String → Option PyDate
  | none => none
  | some s =>
    if s.data = [] then none
    else
      match absolutePhase duParse s.data dateMatchers with
      | some d => some d
      | none => relativePhase today s.data

/-! ## The per-item pipeline and the run template
(base_scraper.py lines 166–196, 295–329, 336–395) -/

/-- A raw listing dictionary as consumed by `_process_job_data`.
String-valued keys accessed with `raw_job.get(key, "")` default to the
empty string when missing; `get("department")` / `get("posted_date")`
default to `None`. -/
structure RawJob where
  title : String := ""
  description : String := ""
  location : String := ""
  department : Option String := none
  url : String := ""
  posted_date : Option String := none
  deriving DecidableEq, Repr

/-- The `Job` record (models.py lines 83–100) with the fields the pipeline
fills in.  The extra keyword arguments `_process_job_data` passes
(`requirements`, `responsibilities`, `benefits`, `categorization_result`,
`source_data`) match no declared field and are discarded by pydantic's
default extra-field handling, so they do not appear here; `metadata` keeps
its default empty dictionary and is omitted. -/
structure Job where
  id : String
  title : String
  company : CompanyName
  location : String
  description : String
  department : Option String := none
  category : JobCategory := .OTHER
  job_type : JobType := .FULL_TIME
  experience_level : ExperienceLevel := .MID
  workplace_type : WorkplaceType := .UNKNOWN
  posted_date : Option PyDate := none
  url : Option String := none
  deriving DecidableEq, Repr

/-- The `self.stats` dictionary initialised in `BaseScraper.__init__`
(lines 189–194). -/
structure Stats where
  jobs_found : Nat := 0
  jobs_processed : Nat := 0
  jobs_categorized : Nat := 0
  errors : List String := []
  deriving DecidableEq, Repr

/-- External collaborators used inside the pipeline: `dateutil.parser.parse`
(composed with `.date()`, failures as `none`), `datetime.now().date()`, and
`urllib.parse.urljoin`. -/
structure Externals where
  duParse : String → Option PyDate
  today : PyDate
  urlJoin : String → String → String

/-- Per-scraper configuration captured in `BaseScraper.__init__`:
the careers URL, the company enum value, the categorizer configuration and
the effective rate limit. -/
structure ScrapeEnv where
  careers_url : String
  company : CompanyName
  cats : List (String × CatInfo)
  rules : CatRules
  rate_limit : ℚ

/-- The `Job(...)` constructor call of `_process_job_data` (lines 371–389)
restricted to the declared model fields (see `Job`). -/
def mkJob (company : CompanyName) (title description location : String)
    (department : Option String) (category : JobCategory) (job_type : JobType)
    (experience_level : ExperienceLevel) (workplace_type : WorkplaceType)
    (posted_date : Option PyDate) (url : String) : Job :=
  { id := "", title := title, company := company, location := location,
    description := description, department := department, category := category,
    job_type := job_type, experience_level := experience_level,
    workplace_type := workplace_type, posted_date := posted_date,
    url := some url }

/-- The `try:` body of `_process_job_data` (lines 338–391).  A raised
`AttributeError` aborts the body, keeping the statistics mutations already
performed (`jobs_categorized` is incremented before the experience-level
and workplace-type attribute accesses). -/
def processJobDataBody (ext : Externals) (env : ScrapeEnv) (stats : Stats)
    (raw : RawJob) : Except (Stats × PyErr) (Stats × Option Job) :=
  match cleanTextS raw.title, cleanTextS raw.description, cleanTextS raw.location with
  | some title, some description, some location =>
    let department := cleanText raw.department
    let url0 := raw.url
    let url := if url0 ≠ "" && ¬ url0.startsWith "http" then
        ext.urlJoin env.careers_url url0
      else url0
    let categorization := categorizeJob env.cats env.rules title description department
    let stats := { stats with jobs_categorized := stats.jobs_categorized + 1 }
    let posted_date := parseDate ext.duParse ext.today raw.posted_date
    let job_type := determineJobType title description
    match determineExperienceLevel title description with
    | .error e => .error (stats, e)
    | .ok experience_level =>
      match determineWorkplaceType location description with
      | .error e => .error (stats, e)
      | .ok workplace_type =>
        .ok (stats, some (mkJob env.company title description location department
          categorization.category job_type experience_level workplace_type
          posted_date url))
  | _, _, _ => .ok (stats, none)

/-- `BaseScraper._process_job_data` (lines 336–395): any exception from the
body is caught by its own `except Exception` handler, which logs and
returns `None` — it does not reach `scrape_jobs` and does not touch the
`errors` list. -/
def processJobData (ext : Externals) (env : ScrapeEnv) (stats : Stats)
    (raw : RawJob) : Stats × Option Job :=
  match processJobDataBody ext env stats raw with
  | .ok r => r
  | .error (st, _) => (st, none)

/-- The record (or `None`) produced from one raw listing; the decision is
independent of the statistics threaded through `processJobData`. -/
def jobOfRaw (ext : Externals) (env : ScrapeEnv) (raw : RawJob) : Option Job :=
  (processJobData ext env {} raw).2

structure ScrapeResult where
  jobs : List Job
  stats : Stats
  totalDelay : ℚ
  deriving Repr

/-- One iteration of the `for raw_job in raw_jobs:` loop of `scrape_jobs`
(lines 308–320).  The surrounding `try/except` that would append to
`stats["errors"]` can only catch exceptions raised by
`_process_job_data`, which swallows all of its own exceptions, so the
handler is unreachable and the loop body is total.  The politeness delay
(`asyncio.sleep(1 / rate_limit)` when `rate_limit > 0`) is accumulated. -/
def scrapeStep (ext : Externals) (env : ScrapeEnv)
    (acc : List Job × Stats × ℚ) (raw : RawJob) : List Job × Stats × ℚ :=
  let jst := processJobData ext env acc.2.1 raw
  let jobsStats : List Job × Stats :=
    match jst.2 with
    | some j => (acc.1 ++ [j],
        { jst.1 with jobs_processed := jst.1.jobs_processed + 1 })
    | none => (acc.1, jst.1)
  let delay := if env.rate_limit > 0 then acc.2.2 + 1 / env.rate_limit else acc.2.2
  (jobsStats.1, jobsStats.2, delay)

/-- `BaseScraper.scrape_jobs` (lines 295–329) from the point where the
extraction hook has produced `raw_jobs`; afterwards
`stats["jobs_found"]` is assigned the length of the raw list. -/
def scrapeJobs (ext : Externals) (env : ScrapeEnv) (stats0 : Stats)
    (raws : List RawJob) : ScrapeResult :=
  let r := raws.foldl (scrapeStep ext env) ([], stats0, 0)
  ⟨r.1, { r.2.1 with jobs_found := raws.length }, r.2.2⟩

/-! ## `ScraperFactory` (scraper_factory.py lines 17–143)

A company configuration dictionary is modelled by the keys the factory
reads: the `enabled` flag (`config.get("enabled", True)`), the
`scraper_class` name and the `module` path.  The `importlib` machinery is
an external collaborator: an arbitrary function from module paths to
modules, a module being a function from attribute names to classes
(`none` models `ModuleNotFoundError` / `AttributeError`).  A scraper class
carries the one property the factory inspects, `issubclass(·, BaseScraper)`.
The global configuration is an arbitrary type `γ`. -/

structure CompanyConfig where
  name : String := ""
  enabled : Option Bool := none
  scraper_class : Option String := none
  module_path : Option String := none
  deriving DecidableEq, Repr

structure ScraperClass where
  className : String
  isSubclassOfBase : Bool
  deriving DecidableEq, Repr

def Imports : Type := String → Option (String → Option ScraperClass)

/-- The errors `ScraperFactory` raises. -/
inductive FactoryErr
  | keyError (company_key : String)
  | disabled (company_key : String)
  | missingClass (company_key : String)
  | moduleNotFound (module_path company_key : String)
  | attributeError (module_path class_name : String)
  | typeError (class_name company_key : String)
  deriving DecidableEq, Repr

/-- The factory state after `__init__`: the lower-cased `companies` map in
insertion order, the remaining top-level configuration, and the (initially
empty) explicit registry. -/
structure Factory (γ : Type) where
  company_configs : List (String × CompanyConfig)
  global_config : γ
  registry : List (String × ScraperClass) := []

/-- A constructed scraper instance: `scraper_cls(company_config=...,
global_config=...)`. -/
structure ScraperInstance (γ : Type) where
  cls : ScraperClass
  company_config : CompanyConfig
  global_config : γ

/-- `ScraperFactory.available_companies` (lines 75–80). -/
def availableCompanies {γ : Type} (f : Factory γ) (include_disabled : Bool) :
    List String :=
  f.company_configs.filterMap
    (fun p => if include_disabled || p.2.enabled.getD true then some p.1 else none)

/-- `ScraperFactory.get_company_config` (lines 82–90) at value level (the
heap-level deep-copy behaviour is modelled separately below); `none` models
the `KeyError`. -/
def getCompanyConfig {γ : Type} (f : Factory γ) (company_key : String) :
    Option CompanyConfig :=
  assocLookup (pyLowerS company_key) f.company_configs

/-- `ScraperFactory._get_scraper_class` (lines 109–143): registry hit,
otherwise convention-based import, caching the resolved class in the
registry. -/
def getScraperClass {γ : Type} (imp : Imports) (f : Factory γ)
    (company_key : String) (cfg : CompanyConfig) :
    Except FactoryErr (Factory γ × ScraperClass) :=
  match assocLookup company_key f.registry with
  | some cls => .ok (f, cls)
  | none =>
    match cfg.scraper_class with
    | none => .error (.missingClass company_key)
    | some class_name =>
      let module_path :=
        cfg.module_path.getD ("scrapers.companies." ++ company_key ++ "_scraper")
      match imp module_path with
      | none => .error (.moduleNotFound module_path company_key)
      | some mod =>
        match mod class_name with
        | none => .error (.attributeError module_path class_name)
        | some cls =>
          if cls.isSubclassOfBase then
            .ok ({ f with registry := f.registry ++ [(company_key, cls)] }, cls)
          else .error (.typeError class_name company_key)

/-- `ScraperFactory.create_scraper` (lines 95–107).  The returned factory
component is the (possibly registry-extended) post-call state; on every
error path the state is returned unchanged. -/
def createScraper {γ : Type} (imp : Imports) (f : Factory γ)
    (company_key : String) : Factory γ × Except FactoryErr (ScraperInstance γ) :=
  let nk := pyLowerS company_key
  match getCompanyConfig f company_key with
  | none => (f, .error (.keyError company_key))
  | some cfg =>
    if cfg.enabled.getD true = false then (f, .error (.disabled company_key))
    else
      match getScraperClass imp f nk cfg with
      | .error e => (f, .error e)
      | .ok (f2, cls) =>
        (f2, .ok ⟨cls, cfg, f2.global_config⟩)

/-! ## Concrete fixtures used by the evaluation theorems -/

/-- External collaborators for closed evaluations: a date parser that fails
on every input, a fixed current date, and a trivial URL joiner. -/
def ext0 : Externals := ⟨fun _ => none, ⟨2025, 1, 1⟩, fun _ r => r⟩

/-- A scraper environment with no configured categories, default rules and
`rate_limit = 0`. -/
def env0 : ScrapeEnv := ⟨"https://careers.example.com/", .META, [], {}, 0⟩

/-- A well-formed raw listing (title, description and location all
non-empty after cleaning) with no seniority marker in the title and no
year-range phrase in the description. -/
def rawGeneric : RawJob :=
  { title := "Software Engineer",
    description := "Join our team to build great products.",
    location := "New York, NY" }

/-- A well-formed raw listing whose title carries a seniority marker. -/
def rawSenior : RawJob :=
  { title := "Senior Platform Engineer",
    description := "Build data pipelines.",
    location := "New York, NY" }

/-- A second well-formed raw listing (director-level title). -/
def rawDirector : RawJob :=
  { title := "Director of Data",
    description := "Run the analytics group.",
    location := "Seattle, WA" }

/-- A raw listing with no `location` key (`get("location", "")` yields
`""`, which cleans to `None`). -/
def rawNoLocation : RawJob :=
  { title := "Senior Backend Engineer",
    description := "Work on services." }

instance {ε α : Type} [DecidableEq ε] [DecidableEq α] : DecidableEq (Except ε α)
  | .ok a, .ok b =>
    if h : a = b then .isTrue (by rw [h]) else .isFalse (by simp [h])
  | .ok _, .error _ => .isFalse (by simp)
  | .error _, .ok _ => .isFalse (by simp)
  | .error a, .error b =>
    if h : a = b then .isTrue (by rw [h]) else .isFalse (by simp [h])

/-! # Claim theorems -/

/-! ## C10 — `_clean_text` returns `None` or a non-empty string -/

/-- C10: for every input, `BaseScraper._clean_text` returns either `None`
or a non-empty string, never the empty string; `None`, the empty string,
and any string whose cleaning pipeline leaves nothing all yield `None`, so
downstream required-field checks treat such fields as missing. -/
theorem clean_text_none_or_nonempty :
    (∀ os : Option String,
      cleanText os = none ∨ ∃ t : String, cleanText os = some t ∧ t ≠ "")
    ∧ cleanText none = none
    ∧ (∀ s : String, s.data = [] ∨ cleanTextL s.data = [] →
        cleanText (some s) = none) := by
  refine ⟨?_, rfl, ?_⟩
  · intro os
    cases os with
    | none => exact .inl rfl
    | some s =>
      by_cases h : s.data = []
      · exact .inl (by simp [cleanText, h])
      · by_cases h2 : cleanTextL s.data = []
        · exact .inl (by simp [cleanText, h, h2])
        · refine .inr ⟨String.mk (cleanTextL s.data), by simp [cleanText, h, h2], ?_⟩
          simpa [String.ext_iff] using h2
  · intro s h
    rcases h with h | h
    · simp [cleanText, h]
    · by_cases h1 : s.data = [] <;> simp [cleanText, h1, h]

/-- Witness for C10 at a concrete input that cleans to nothing. -/
theorem clean_text_none_or_nonempty_witness : cleanText (some " <p> ") = none :=
  clean_text_none_or_nonempty.2.2 " <p> " (.inr (by decide))

/-! ## C5 — `_find_keyword_matches` membership and multiplicity -/

theorem findKeywordMatches_cons (text : List Char) (k : String) (ks : List String) :
    findKeywordMatches text (k :: ks) =
      if strIn (pyLowerS k) text
          || ((pySplit k).length > 1 && (pySplit k).all (fun w => strIn (pyLowerS w) text)) then
        k :: findKeywordMatches text ks
      else findKeywordMatches text ks := by
  by_cases h1 : strIn (pyLowerS k) text = true
  · simp [findKeywordMatches, h1]
  · by_cases h2 : ((pySplit k).length > 1 && (pySplit k).all (fun w => strIn (pyLowerS w) text)) = true
    · simp [findKeywordMatches, h1, h2]
    · simp [findKeywordMatches, h1, h2]

/-- C5 (amended): a keyword is reported by `_find_keyword_matches` exactly
when it occurs in the keyword list and either its lower-cased form is a
substring of the target text or — for multi-word keywords only — every one
of its words occurs in the text; each occurrence in the keyword list is
reported at most once (so a duplicate-free list reports each keyword at
most once). -/
theorem find_keyword_matches_iff (text : List Char) (kws : List String) (k : String) :
    (k ∈ findKeywordMatches text kws ↔
      k ∈ kws ∧ (strIn (pyLowerS k) text = true ∨
        ((pySplit k).length > 1 ∧ ∀ w ∈ pySplit k, strIn (pyLowerS w) text = true)))
    ∧ (findKeywordMatches text kws).count k ≤ kws.count k := by
  induction kws with
  | nil => simp [findKeywordMatches]
  | cons a ks ih =>
    rw [findKeywordMatches_cons]
    by_cases hc : (strIn (pyLowerS a) text
        || ((pySplit a).length > 1 && (pySplit a).all (fun w => strIn (pyLowerS w) text))) = true
    · rw [if_pos hc]
      simp only [Bool.or_eq_true, Bool.and_eq_true, decide_eq_true_eq,
        List.all_eq_true] at hc
      refine ⟨?_, ?_⟩
      · simp only [List.mem_cons, ih.1]
        constructor
        · rintro (rfl | ⟨hk, hcond⟩)
          · exact ⟨.inl rfl, hc⟩
          · exact ⟨.inr hk, hcond⟩
        · rintro ⟨rfl | hk, hcond⟩
          · exact .inl rfl
          · exact .inr ⟨hk, hcond⟩
      · simp only [List.count_cons]
        exact Nat.add_le_add_right ih.2 _
    · rw [if_neg hc]
      simp only [Bool.or_eq_true, Bool.and_eq_true, decide_eq_true_eq,
        List.all_eq_true] at hc
      refine ⟨?_, ?_⟩
      · rw [ih.1]
        constructor
        · rintro ⟨hk, hcond⟩
          exact ⟨List.mem_cons_of_mem _ hk, hcond⟩
        · rintro ⟨hmem, hcond⟩
          rcases List.mem_cons.mp hmem with rfl | hk
          · exact absurd hcond hc
          · exact ⟨hk, hcond⟩
      · calc (findKeywordMatches text ks).count k ≤ ks.count k := ih.2
          _ ≤ (a :: ks).count k := by
              rw [List.count_cons]; exact Nat.le_add_right _ _

/-- Counterexample to C5 as stated: with a duplicated keyword list, the
same keyword is reported twice, not at most once. -/
theorem find_keyword_matches_duplicate_report :
    (findKeywordMatches "ml engineer".data ["ml", "ml"]).count "ml" = 2 := by
  decide

/-- Witness for C5 at a concrete text and keyword list. -/
theorem find_keyword_matches_iff_witness :
    "ml" ∈ findKeywordMatches "ml engineer".data ["ml"] :=
  (find_keyword_matches_iff "ml engineer".data ["ml"] "ml").1.mpr
    ⟨by decide, .inl (by decide)⟩

/-! ## C4 — `categorize_job` confidence bounds and catch-all -/

theorem buildScores_pos (rules : CatRules) (t d dp : List Char) :
    ∀ cats, ∀ p ∈ (buildScores rules t d dp cats).1, 0 < p.2 := by
  intro cats
  induction cats with
  | nil => simp [buildScores]
  | cons c rest ih =>
    intro p hp
    simp only [buildScores] at hp
    by_cases hsc : (categoryScore rules t d dp c.2).1 > 0
    · rw [if_pos hsc] at hp
      rcases List.mem_cons.mp hp with rfl | hmem
      · exact hsc
      · exact ih p hmem
    · rw [if_neg hsc] at hp
      exact ih p hp

theorem foldl_max_mem (f : String × ℚ → String × ℚ → String × ℚ)
    (hf : ∀ a b, f a b = a ∨ f a b = b) :
    ∀ (ps : List (String × ℚ)) (p : String × ℚ), ps.foldl f p ∈ p :: ps := by
  intro ps
  induction ps with
  | nil => intro p; simp
  | cons q qs ih =>
    intro p
    rw [List.foldl_cons]
    have h := ih (f p q)
    rcases List.mem_cons.mp h with heq | hmem
    · rcases hf p q with h2 | h2
      · rw [heq, h2]; exact List.mem_cons_self _ _
      · rw [heq, h2]; exact List.mem_cons_of_mem _ (List.mem_cons_self _ _)
    · exact List.mem_cons_of_mem _ (List.mem_cons_of_mem _ hmem)

theorem maxBySnd_mem (l : List (String × ℚ)) (p : String × ℚ)
    (h : maxBySnd l = some p) : p ∈ l := by
  cases l with
  | nil => simp [maxBySnd] at h
  | cons q qs =>
    simp only [maxBySnd, Option.some.injEq] at h
    rw [← h]
    exact foldl_max_mem _ (by
      intro a b
      by_cases hab : b.2 > a.2
      · exact .inr (if_pos hab)
      · exact .inl (if_neg hab)) qs q

theorem confidenceOf_bounds (rules : CatRules) (kwCount : Nat) (best : ℚ)
    (h : 0 < best) :
    0 ≤ confidenceOf rules kwCount best ∧ confidenceOf rules kwCount best ≤ 1 := by
  unfold confidenceOf
  by_cases hm : (kwCount : ℚ) * rules.title_weight > 0
  · rw [if_pos hm]
    exact ⟨le_min (div_pos h hm).le zero_le_one, min_le_right _ _⟩
  · rw [if_neg hm]
    norm_num

/-- The confidence field of `categorize_job` is either the literal `0` of
the no-scores branch or the normalised value of the winning (positive)
score. -/
theorem categorizeJob_confidence_cases (cats : List (String × CatInfo))
    (rules : CatRules) (title description : String) (department : Option String) :
    (categorizeJob cats rules title description department).confidence = 0
    ∨ ∃ best ∈ (buildScores rules (pyLower title.data)
          ((pyLower description.data).take 500)
          (pyLower ((department.getD "").data)) cats).1,
        (categorizeJob cats rules title description department).confidence
          = confidenceOf rules ((assocLookup best.1 cats).getD {}).keywords.length best.2 := by
  unfold categorizeJob
  cases hmax : maxBySnd (buildScores rules (pyLower title.data)
      ((pyLower description.data).take 500)
      (pyLower ((department.getD "").data)) cats).1 with
  | none => exact .inl (by simp [hmax])
  | some best =>
    refine .inr ⟨best, maxBySnd_mem _ _ hmax, ?_⟩
    simp only [hmax]
    by_cases hthr : confidenceOf rules ((assocLookup best.1 cats).getD {}).keywords.length best.2
        < rules.min_confidence_threshold
    · rw [if_pos hthr]
    · rw [if_neg hthr]

theorem buildScores_all_empty (rules : CatRules) (t d dp : List Char) :
    ∀ cats : List (String × CatInfo),
      (∀ p ∈ cats, findKeywordMatches t p.2.keywords = []
        ∧ findKeywordMatches d p.2.keywords = []
        ∧ findKeywordMatches dp p.2.departments = []) →
      buildScores rules t d dp cats = ([], []) := by
  intro cats
  induction cats with
  | nil => intro _; rfl
  | cons c rest ih =>
    intro h
    have hc := h c (List.mem_cons_self _ _)
    have hscore : (categoryScore rules t d dp c.2).1 = 0 := by
      simp [categoryScore, hc.1, hc.2.1, hc.2.2]
    simp only [buildScores, hscore]
    rw [if_neg (by norm_num)]
    exact ih (fun p hp => h p (List.mem_cons_of_mem _ hp))

/-- C4: for every title, description, department and category
configuration, `categorize_job` returns a confidence in `[0, 1]`; and
whenever zero keywords matched across all categories it returns the
catch-all `OTHER` category with confidence `0` and the no-keyword-matches
reasoning. -/
theorem categorize_job_confidence_bounds (cats : List (String × CatInfo))
    (rules : CatRules) (title description : String) (department : Option String) :
    (0 ≤ (categorizeJob cats rules title description department).confidence
      ∧ (categorizeJob cats rules title description department).confidence ≤ 1)
    ∧ ((∀ p ∈ cats,
          findKeywordMatches (pyLower title.data) p.2.keywords = []
          ∧ findKeywordMatches ((pyLower description.data).take 500) p.2.keywords = []
          ∧ findKeywordMatches (pyLower ((department.getD "").data)) p.2.departments = []) →
        categorizeJob cats rules title description department
          = { category := .OTHER, confidence := 0, keyword_matches := [],
              department_match := false, reasoning := .noKeywords }) := by
  constructor
  · rcases categorizeJob_confidence_cases cats rules title description department with
      h | ⟨best, hmem, h⟩
    · rw [h]; norm_num
    · rw [h]
      exact confidenceOf_bounds _ _ _
        (buildScores_pos rules (pyLower title.data)
          ((pyLower description.data).take 500)
          (pyLower ((department.getD "").data)) cats best hmem)
  · intro h
    have hz := buildScores_all_empty rules (pyLower title.data)
      ((pyLower description.data).take 500)
      (pyLower ((department.getD "").data)) cats h
    unfold categorizeJob
    simp [hz, maxBySnd]

/-- Witness for C4 at a concrete configuration and posting in which no
keyword matches. -/
theorem categorize_job_confidence_bounds_witness :
    categorizeJob [("technology", { keywords := ["engineer"], departments := ["engineering"] })]
        ({} : CatRules) "Quantum Chef" "Prepare molecular dishes." none
      = { category := .OTHER, confidence := 0, keyword_matches := [],
          department_match := false, reasoning := .noKeywords } :=
  (categorize_job_confidence_bounds
    [("technology", { keywords := ["engineer"], departments := ["engineering"] })]
    ({} : CatRules) "Quantum Chef" "Prepare molecular dishes." none).2 (by decide)

/-! ## C8 — `_parse_date`: absolute patterns first, relative phrases with
no numeric delta -/

theorem absolutePhase_nil (du : String → Option PyDate) :
    absolutePhase du [] dateMatchers = none := by
  have h1 : searchPat matchISO [] = none := rfl
  have h2 : searchPat matchSlash [] = none := rfl
  have h3 : searchPat matchDash [] = none := rfl
  have h4 : searchPat matchMonthDY [] = none := rfl
  have h5 : searchPat matchDMonthY [] = none := rfl
  simp [absolutePhase, dateMatchers, h1, h2, h3, h4, h5]

theorem absolutePhase_none_of_search_none (du : String → Option PyDate)
    (cs : List Char) :
    ∀ ms, (∀ m ∈ ms, searchPat m cs = none) → absolutePhase du cs ms = none := by
  intro ms
  induction ms with
  | nil => intro _; rfl
  | cons m rest ih =>
    intro h
    have hm := h m (List.mem_cons_self _ _)
    simp only [absolutePhase, hm]
    exact ih (fun m2 hm2 => h m2 (List.mem_cons_of_mem _ hm2))

/-- C8: `_parse_date` uses the absolute date patterns first — whenever the
absolute phase produces a date, that date is the result and the relative
phrases are never consulted; and on any string that none of the absolute
patterns matches but that contains an `N days ago` / `N weeks ago` phrase,
the result is exactly the current date: the captured `N` is never
subtracted. -/
theorem parse_date_absolute_first_relative_no_delta
    (du : String → Option PyDate) (today : PyDate) (s : String) :
    (∀ d, absolutePhase du s.data dateMatchers = some d →
      parseDate du today (some s) = some d)
    ∧ ((∀ m ∈ dateMatchers, searchPat m s.data = none) →
        (searchRel "day" (pyLower s.data) = true
          ∨ searchRel "week" (pyLower s.data) = true) →
        parseDate du today (some s) = some today) := by
  constructor
  · intro d hd
    simp only [parseDate]
    by_cases hnil : s.data = []
    · rw [hnil, absolutePhase_nil] at hd
      exact Option.noConfusion hd
    · rw [if_neg hnil, hd]
  · intro habs hrel
    have hnil : s.data ≠ [] := by
      intro hnil
      rw [hnil] at hrel
      have : pyLower [] = ([] : List Char) := rfl
      rw [this] at hrel
      simp [searchRel] at hrel
    simp only [parseDate]
    rw [if_neg hnil, absolutePhase_none_of_search_none du s.data _ habs]
    simp only [relativePhase]
    rcases hrel with h | h
    · rw [if_pos h]
    · by_cases hd : searchRel "day" (pyLower s.data) = true
      · rw [if_pos hd]
      · rw [if_neg hd, if_pos h]

/-- Witness for C8 at the phrase `"3 days ago"`, on which no absolute
pattern matches. -/
theorem parse_date_relative_witness :
    parseDate (fun _ => none) ⟨2025, 7, 4⟩ (some "3 days ago") = some ⟨2025, 7, 4⟩ :=
  (parse_date_absolute_first_relative_no_delta (fun _ => none) ⟨2025, 7, 4⟩
    "3 days ago").2 (by decide) (.inl (by decide))

/-! ## C6 — `create_scraper` on a disabled company -/

/-- C6: for every company whose configuration has `enabled = false`,
`create_scraper` fails with the disabled-company error, leaves the factory
state (registry and configurations) unchanged, and its outcome is
independent of the import machinery — no module is imported, no class
resolved, no constructor run. -/
theorem create_scraper_disabled {γ : Type} (imp imp2 : Imports)
    (f : Factory γ) (key : String) (cfg : CompanyConfig)
    (hcfg : getCompanyConfig f key = some cfg)
    (hdis : cfg.enabled = some false) :
    createScraper imp f key = (f, .error (.disabled key))
    ∧ createScraper imp f key = createScraper imp2 f key := by
  have h : ∀ imp3 : Imports, createScraper imp3 f key = (f, .error (.disabled key)) := by
    intro imp3
    unfold createScraper
    rw [hcfg]
    simp [hdis]
  exact ⟨h imp, (h imp).trans (h imp2).symm⟩

/-- Witness for C6 on a one-company factory whose only company is
disabled, with two distinct import environments. -/
theorem create_scraper_disabled_witness :
    createScraper (fun _ => none)
        (⟨[("meta", { name := "meta", enabled := some false })], (), []⟩ : Factory Unit)
        "Meta"
      = (⟨[("meta", { name := "meta", enabled := some false })], (), []⟩,
          .error (.disabled "Meta")) :=
  (create_scraper_disabled (fun _ => none)
    (fun _ => some (fun _ => some ⟨"MetaScraper", true⟩))
    ⟨[("meta", { name := "meta", enabled := some false })], (), []⟩
    "Meta" { name := "meta", enabled := some false } (by decide) rfl).1

/-! ## C7 — `available_companies` filtering -/

theorem availableCompanies_false_eq_filter {γ : Type} (f : Factory γ) :
    availableCompanies f false
      = (f.company_configs.filter (fun p => p.2.enabled.getD true)).map Prod.fst := by
  unfold availableCompanies
  simp only [Bool.false_or]
  induction f.company_configs with
  | nil => rfl
  | cons p rest ih =>
    by_cases hp : p.2.enabled.getD true = true
    · simp only [List.filterMap_cons, List.filter_cons, hp, if_pos rfl, if_true,
        List.map_cons, ih]
    · simp only [List.filterMap_cons, List.filter_cons, hp, if_neg hp, if_false]
      simp [ih]

theorem availableCompanies_true_eq_map {γ : Type} (f : Factory γ) :
    availableCompanies f true = f.company_configs.map Prod.fst := by
  unfold availableCompanies
  simp only [Bool.true_or]
  induction f.company_configs with
  | nil => rfl
  | cons p rest ih =>
    simp only [if_pos trivial] at ih
    simp only [List.filterMap_cons, if_pos trivial, List.map_cons]
    rw [ih]

/-- C7 (amended): the default call yields exactly the configured keys whose
enabled flag is true (a missing flag counts as enabled); the
`include_disabled` call yields all configured keys; the former is always a
sublist of the latter, and the inclusion is strict exactly when some
configured company is disabled. -/
theorem available_companies_filtering {γ : Type} (f : Factory γ) :
    availableCompanies f false
      = (f.company_configs.filter (fun p => p.2.enabled.getD true)).map Prod.fst
    ∧ availableCompanies f true = f.company_configs.map Prod.fst
    ∧ (availableCompanies f false).Sublist (availableCompanies f true)
    ∧ ((∃ p ∈ f.company_configs, p.2.enabled.getD true = false)
        ↔ availableCompanies f false ≠ availableCompanies f true) := by
  refine ⟨availableCompanies_false_eq_filter f, availableCompanies_true_eq_map f, ?_, ?_⟩
  · rw [availableCompanies_false_eq_filter f, availableCompanies_true_eq_map f]
    exact (List.filter_sublist _).map _
  · rw [availableCompanies_false_eq_filter f, availableCompanies_true_eq_map f]
    constructor
    · rintro ⟨p, hp, hdis⟩ heq
      have hlt : (f.company_configs.filter (fun p => p.2.enabled.getD true)).length
          < f.company_configs.length :=
        List.length_filter_lt_length_iff_exists.mpr ⟨p, hp, by simp [hdis]⟩
      have := congrArg List.length heq
      simp only [List.length_map] at this
      omega
    · intro hne
      by_contra hall
      push_neg at hall
      have : f.company_configs.filter (fun p => p.2.enabled.getD true)
          = f.company_configs := by
        rw [List.filter_eq_self]
        intro p hp
        have := hall p hp
        cases hx : p.2.enabled.getD true
        · exact absurd hx this
        · rfl
      rw [this] at hne
      exact hne rfl

/-- Witness for C7 on a factory with one disabled company: there the
inclusion is strict. -/
theorem available_companies_filtering_witness :
    availableCompanies
        (⟨[("meta", { name := "meta", enabled := some false })], (), []⟩ : Factory Unit) false
      ≠ availableCompanies
        (⟨[("meta", { name := "meta", enabled := some false })], (), []⟩ : Factory Unit) true :=
  (available_companies_filtering
      (⟨[("meta", { name := "meta", enabled := some false })], (), []⟩ : Factory Unit)).2.2.2.mp
    ⟨("meta", { name := "meta", enabled := some false }), by decide, by decide⟩

/-- Counterexample to C7 as stated: with every configured company enabled,
the `include_disabled` call returns the same sequence as the default call,
so it is not a *strict* superset. -/
theorem available_companies_not_strict :
    availableCompanies
        (⟨[("meta", { name := "meta", enabled := some true })], (), []⟩ : Factory Unit) false
      = availableCompanies
        (⟨[("meta", { name := "meta", enabled := some true })], (), []⟩ : Factory Unit) true := by
  decide

/-! ## Shape lemmas for the per-item pipeline (used by C1, C2, C3) -/

/-- The body of `_process_job_data` either drops the item with the
statistics untouched, or counts one categorization and returns a record,
or counts one categorization and raises. -/
theorem processJobDataBody_cases (ext : Externals) (env : ScrapeEnv) (raw : RawJob) :
    (∀ st, processJobDataBody ext env st raw = .ok (st, none))
    ∨ (∃ j : Job, ∀ st, processJobDataBody ext env st raw
          = .ok ({ st with jobs_categorized := st.jobs_categorized + 1 }, some j))
    ∨ (∃ e : PyErr, ∀ st, processJobDataBody ext env st raw
          = .error ({ st with jobs_categorized := st.jobs_categorized + 1 }, e)) := by
  cases h1 : cleanTextS raw.title with
  | none => exact .inl (fun st => by simp [processJobDataBody, h1])
  | some t =>
  cases h2 : cleanTextS raw.description with
  | none => exact .inl (fun st => by simp [processJobDataBody, h1, h2])
  | some d =>
  cases h3 : cleanTextS raw.location with
  | none => exact .inl (fun st => by simp [processJobDataBody, h1, h2, h3])
  | some l =>
  cases h4 : determineExperienceLevel t d with
  | error e =>
    exact .inr (.inr ⟨e, fun st => by simp [processJobDataBody, h1, h2, h3, h4]⟩)
  | ok el =>
  cases h5 : determineWorkplaceType l d with
  | error e =>
    exact .inr (.inr ⟨e, fun st => by simp [processJobDataBody, h1, h2, h3, h4, h5]⟩)
  | ok wt =>
    refine .inr (.inl ⟨mkJob env.company t d l (cleanText raw.department)
      (categorizeJob env.cats env.rules t d (cleanText raw.department)).category
      (determineJobType t d) el wt
      (parseDate ext.duParse ext.today raw.posted_date)
      (if ¬raw.url = "" ∧ raw.url.startsWith "http" = false then
        ext.urlJoin env.careers_url raw.url
      else raw.url), fun st => ?_⟩)
    simp [processJobDataBody, h1, h2, h3, h4, h5]

/-- The record decision of `_process_job_data` does not depend on the
statistics threaded through it, and the statistics it returns only ever
change the `jobs_categorized` counter. -/
theorem processJobData_snd_stats (ext : Externals) (env : ScrapeEnv) (raw : RawJob) :
    (∀ st st2, (processJobData ext env st raw).2 = (processJobData ext env st2 raw).2)
    ∧ (∀ st, (processJobData ext env st raw).1.errors = st.errors
        ∧ (processJobData ext env st raw).1.jobs_found = st.jobs_found
        ∧ (processJobData ext env st raw).1.jobs_processed = st.jobs_processed) := by
  rcases processJobDataBody_cases ext env raw with h | ⟨j, h⟩ | ⟨e, h⟩ <;>
    exact ⟨fun st st2 => by simp [processJobData, h st, h st2],
      fun st => by simp [processJobData, h st]⟩

/-- Accumulated behaviour of the `for raw_job in raw_jobs` loop. -/
theorem scrapeJobs_fold (ext : Externals) (env : ScrapeEnv) :
    ∀ (raws : List RawJob) (js : List Job) (st : Stats) (d : ℚ),
      (raws.foldl (scrapeStep ext env) (js, st, d)).1
          = js ++ raws.filterMap (jobOfRaw ext env)
      ∧ (raws.foldl (scrapeStep ext env) (js, st, d)).2.1.errors = st.errors
      ∧ (env.rate_limit = 0 → (raws.foldl (scrapeStep ext env) (js, st, d)).2.2 = d) := by
  intro raws
  induction raws with
  | nil => intro js st d; simp
  | cons q qs ih =>
    intro js st d
    rw [List.foldl_cons]
    have hsnd : (processJobData ext env st q).2 = jobOfRaw ext env q :=
      (processJobData_snd_stats ext env q).1 st {}
    have herr : (processJobData ext env st q).1.errors = st.errors :=
      ((processJobData_snd_stats ext env q).2 st).1
    cases hj : jobOfRaw ext env q with
    | none =>
      have hstep : scrapeStep ext env (js, st, d) q
          = (js, (processJobData ext env st q).1,
              if env.rate_limit > 0 then d + 1 / env.rate_limit else d) := by
        rw [hj] at hsnd
        simp [scrapeStep, hsnd]
      rw [hstep]
      rcases ih js ((processJobData ext env st q).1) _ with ⟨hjobs, herrs, hdel⟩
      refine ⟨?_, ?_, ?_⟩
      · rw [hjobs]
        simp [List.filterMap_cons, hj]
      · rw [herrs, herr]
      · intro h0
        rw [hdel h0, h0]
        simp
    | some j =>
      have hstep : scrapeStep ext env (js, st, d) q
          = (js ++ [j],
              { (processJobData ext env st q).1 with
                  jobs_processed := (processJobData ext env st q).1.jobs_processed + 1 },
              if env.rate_limit > 0 then d + 1 / env.rate_limit else d) := by
        rw [hj] at hsnd
        simp [scrapeStep, hsnd]
      rw [hstep]
      rcases ih (js ++ [j])
          ({ (processJobData ext env st q).1 with
              jobs_processed := (processJobData ext env st q).1.jobs_processed + 1 }) _
        with ⟨hjobs, herrs, hdel⟩
      refine ⟨?_, ?_, ?_⟩
      · rw [hjobs]
        simp [List.filterMap_cons, hj]
      · rw [herrs]
        simpa using herr
      · intro h0
        rw [hdel h0, h0]
        simp

/-! ## C1 — the well-formed-listing guarantee fails on the code -/

/-- C1 fails on the code: `rawGeneric` is well formed (title, description
and location all clean to non-empty strings), yet `_process_job_data`
returns `None` instead of a canonical record, because
`_determine_experience_level` falls through to `ExperienceLevel.UNKNOWN`,
a member `models.ExperienceLevel` does not declare; the resulting
`AttributeError` is swallowed by the handler of `_process_job_data`
(after `jobs_categorized` was already incremented). -/
theorem process_job_data_enum_bug :
    (cleanTextS rawGeneric.title = some "Software Engineer"
      ∧ cleanTextS rawGeneric.description = some "Join our team to build great products."
      ∧ cleanTextS rawGeneric.location = some "New York, NY")
    ∧ processJobDataBody ext0 env0 {} rawGeneric
        = .error ({ jobs_categorized := 1 }, .attributeError "ExperienceLevel.UNKNOWN")
    ∧ processJobData ext0 env0 {} rawGeneric = ({ jobs_categorized := 1 }, none) := by
  exact ⟨⟨by decide, by decide, by decide⟩, by decide, by decide⟩

/-! ## C2 — dropping, counting and the zero-rate-limit batch -/

/-- C2: a raw listing whose location cleans to nothing is dropped and never
appears in the records returned by `scrape_jobs`, yet the `found` counter
still counts every raw listing; with `rate_limit = 0` no inter-item delay
is accumulated; and the concrete batch of three listings (two valid, one
missing its location) yields exactly two records with `found = 3` and
`processed = 2`. -/
theorem scrape_jobs_drop_and_count (ext : Externals) (env : ScrapeEnv)
    (stats0 : Stats) (raws : List RawJob) :
    (scrapeJobs ext env stats0 raws).stats.jobs_found = raws.length
    ∧ (env.rate_limit = 0 → (scrapeJobs ext env stats0 raws).totalDelay = 0)
    ∧ (scrapeJobs ext env stats0 raws).jobs = raws.filterMap (jobOfRaw ext env)
    ∧ (∀ raw, cleanTextS raw.location = none → jobOfRaw ext env raw = none)
    ∧ ((scrapeJobs ext0 env0 {} [rawSenior, rawNoLocation, rawDirector]).jobs.length = 2
        ∧ (scrapeJobs ext0 env0 {} [rawSenior, rawNoLocation, rawDirector]).stats.jobs_found = 3
        ∧ (scrapeJobs ext0 env0 {} [rawSenior, rawNoLocation, rawDirector]).stats.jobs_processed = 2
        ∧ (scrapeJobs ext0 env0 {} [rawSenior, rawNoLocation, rawDirector]).totalDelay = 0
        ∧ cleanTextS rawNoLocation.location = none) := by
  obtain ⟨hjobs, herrs, hdel⟩ := scrapeJobs_fold ext env raws [] stats0 0
  refine ⟨rfl, ?_, ?_, ?_, by decide, by decide, by decide, by decide, by decide⟩
  · intro h0
    simpa [scrapeJobs] using hdel h0
  · simpa [scrapeJobs] using hjobs
  · intro raw h
    unfold jobOfRaw processJobData processJobDataBody
    cases h1 : cleanTextS raw.title <;> cases h2 : cleanTextS raw.description <;>
      simp [h1, h2, h]

/-- Witness for C2, discharging the rate-limit and missing-location
hypotheses at concrete inputs. -/
theorem scrape_jobs_drop_and_count_witness :
    (scrapeJobs ext0 env0 {} [rawSenior]).totalDelay = 0
    ∧ jobOfRaw ext0 env0 rawNoLocation = none :=
  ⟨(scrape_jobs_drop_and_count ext0 env0 {} [rawSenior]).2.1 (by decide),
   (scrape_jobs_drop_and_count ext0 env0 {} [rawSenior]).2.2.2.1 rawNoLocation (by decide)⟩

/-! ## C3 — failure isolation without error-list reporting -/

/-- Counterexample to C3 as stated: processing `rawGeneric` raises an
`AttributeError` inside the per-item pipeline, yet after `scrape_jobs`
the `errors` list is empty — the message was never appended, because the
exception is caught inside `_process_job_data`, not in `scrape_jobs`. -/
theorem scrape_jobs_error_list_counterexample :
    processJobDataBody ext0 env0 {} rawGeneric
      = .error ({ jobs_categorized := 1 }, .attributeError "ExperienceLevel.UNKNOWN")
    ∧ (scrapeJobs ext0 env0 {} [rawGeneric]).stats.errors = []
    ∧ (scrapeJobs ext0 env0 {} [rawGeneric]).jobs = [] := by
  exact ⟨by decide, by decide, by decide⟩

/-- C3 (amended): a per-item normalization or categorization exception is
caught inside `_process_job_data` itself, which drops the item and returns
`None`; `scrape_jobs` therefore never appends to the `errors` list in the
per-item loop, never propagates such a failure, and processes every item
of the batch independently of earlier failures. -/
theorem scrape_jobs_per_item_isolation (ext : Externals) (env : ScrapeEnv)
    (stats0 : Stats) (raws : List RawJob) :
    (scrapeJobs ext env stats0 raws).stats.errors = stats0.errors
    ∧ (scrapeJobs ext env stats0 raws).jobs = raws.filterMap (jobOfRaw ext env)
    ∧ (∀ st raw stE e, processJobDataBody ext env st raw = .error (stE, e) →
        processJobData ext env st raw = (stE, none)) := by
  obtain ⟨hjobs, herrs, _⟩ := scrapeJobs_fold ext env raws [] stats0 0
  refine ⟨?_, ?_, ?_⟩
  · simpa [scrapeJobs] using herrs
  · simpa [scrapeJobs] using hjobs
  · intro st raw stE e h
    simp [processJobData, h]

/-- Witness for C3, discharging the exception hypothesis at the concrete
listing whose experience-level inference raises. -/
theorem scrape_jobs_per_item_isolation_witness :
    processJobData ext0 env0 {} rawGeneric = ({ jobs_categorized := 1 }, none) :=
  (scrape_jobs_per_item_isolation ext0 env0 {} []).2.2 {} rawGeneric
    { jobs_categorized := 1 } (.attributeError "ExperienceLevel.UNKNOWN") (by decide)

/-! ## C9 — heap model of `copy.deepcopy` in the factory

`get_company_config` (scraper_factory.py line 90) returns
`copy.deepcopy(self._company_configs[normalized_key])` and `create_scraper`
(line 107) passes that copy together with
`copy.deepcopy(self._global_config)` into the constructor.  Sharing and
mutation are invisible to a value-level embedding, so the JSON
configuration data is given an explicit heap: a store of nodes addressed
by index, where a Python dict/list node holds the addresses of its
children.  `json.load` builds such data bottom-up, so every child address
is smaller than its parent's (`WFStore`), and the object graphs are trees.
`deepcopy` allocates fresh nodes at the top of the store; a caller
mutation is an arbitrary `List.set` at an address.  The recursion budget
`fuel` only runs out beyond the depth such well-formed stores can have. -/

inductive PyVal
  | vstr (s : String) | vint (n : Int) | vbool (b : Bool) | vnone
  deriving DecidableEq, Repr

/-- A heap node: an immutable leaf value, a dict with addressed values, or
a list with addressed elements. -/
inductive HNode
  | leaf (v : PyVal)
  | dict (entries : List (String × Nat))
  | arr (elems : List Nat)
  deriving DecidableEq, Repr

def HNode.children : HNode → List Nat
  | .leaf _ => []
  | .dict es => es.map Prod.snd
  | .arr xs => xs

abbrev Store : Type := List HNode

/-- Stores produced by `json.load`: every node's children live at strictly
smaller addresses. -/
def WFStore (σ : Store) : Prop :=
  ∀ i, (h : i < σ.length) → ∀ a ∈ (σ.get ⟨i, h⟩).children, a < i

instance (σ : Store) : Decidable (WFStore σ) :=
  Nat.decidableBallLT _ _

/-- Addresses at or above `L` only point at or above `L` (the freshly
copied region is closed). -/
def ClosedAbove (L : Nat) (σ : Store) : Prop :=
  ∀ i nd, σ[i]? = some nd → L ≤ i → ∀ a ∈ nd.children, L ≤ a

/-- The pure value tree read off the heap at an address. -/
inductive PyTree
  | leaf (v : PyVal)
  | dict (entries : List (String × PyTree))
  | arr (elems : List PyTree)

/-- Dereference an address into its value tree (fuel-bounded; under
`WFStore` a budget above the address is always enough). -/
def readF : Nat → Store → Nat → PyTree
  | 0, _, _ => .leaf .vnone
  | fuel + 1, σ, a =>
    match σ[a]? with
    | none => .leaf .vnone
    | some (.leaf v) => .leaf v
    | some (.dict es) => .dict (es.map (fun p => (p.1, readF fuel σ p.2)))
    | some (.arr xs) => .arr (xs.map (fun b => readF fuel σ b))

/-- `copy.deepcopy` over a worklist of addresses: each address is copied
recursively (children first, then the node itself at a fresh top address),
then the rest of the worklist on the grown store.  The configuration
graphs are trees, so the memo dictionary of `copy.deepcopy` never fires
and is not modelled. -/
def deepcopyL : Nat → Store → List Nat → Store × List Nat
  | 0, σ, as => (σ, as.map (fun _ => List.length σ))
  | _ + 1, σ, [] => (σ, [])
  | fuel + 1, σ, a :: rest =>
    let r1 : Store × Nat :=
      match σ[a]? with
      | none => (σ ++ [.leaf .vnone], List.length σ)
      | some (.leaf v) => (σ ++ [.leaf v], List.length σ)
      | some (.dict es) =>
        let rc := deepcopyL fuel σ (es.map Prod.snd)
        (rc.1 ++ [.dict ((es.map Prod.fst).zip rc.2)], List.length rc.1)
      | some (.arr xs) =>
        let rc := deepcopyL fuel σ xs
        (rc.1 ++ [.arr rc.2], List.length rc.1)
    let r2 := deepcopyL fuel r1.1 rest
    (r2.1, r1.2 :: r2.2)

/-- `copy.deepcopy` of the object at one address. -/
def deepcopy (σ : Store) (a : Nat) : Store × Nat :=
  let r := deepcopyL (List.length σ + 1) σ [a]
  (r.1, r.2.headD (List.length σ))

/-- The factory state as a heap: the store, the per-company configuration
roots (`self._company_configs`, keys lower-cased) and the global
configuration root (`self._global_config`). -/
structure HFactory where
  store : Store
  company_roots : List (String × Nat)
  global_root : Nat
  deriving DecidableEq

/-- `ScraperFactory.get_company_config` (lines 82–90) on the heap:
`KeyError` is `none`, otherwise the company's configuration tree is
deep-copied and the fresh root returned. -/
def getCompanyConfigH (hf : HFactory) (key : String) : Option (HFactory × Nat) :=
  match assocLookup (pyLowerS key) hf.company_roots with
  | none => none
  | some a =>
    let r := deepcopy hf.store a
    some ({ hf with store := r.1 }, r.2)

/-- The two configuration copies `create_scraper` (lines 95–107) passes to
the scraper constructor: the company configuration from
`get_company_config` and a deep copy of the global configuration (the
enabled check and class resolution are modelled at value level by
`createScraper`). -/
def createScraperCopiesH (hf : HFactory) (key : String) :
    Option (HFactory × Nat × Nat) :=
  match getCompanyConfigH hf key with
  | none => none
  | some (hf1, rc) =>
    let rg := deepcopy hf1.store hf1.global_root
    some ({ hf1 with store := rg.1 }, rc, rg.2)

/-- Reachability along child pointers in a store. -/
inductive ReachH (σ : Store) : Nat → Nat → Prop
  | refl (a : Nat) : ReachH σ a a
  | step {a b c : Nat} (nd : HNode) :
      σ[a]? = some nd → b ∈ nd.children → ReachH σ b c → ReachH σ a c

/-- Deep copying only appends to the store. -/
theorem deepcopyL_ext : ∀ (fuel : Nat) (σ : Store) (as : List Nat),
    ∃ τ : Store, (deepcopyL fuel σ as).1 = σ ++ τ := by
  intro fuel
  induction fuel with
  | zero => intro σ as; exact ⟨[], by simp [deepcopyL]⟩
  | succ fuel ih =>
    intro σ as
    cases as with
    | nil => exact ⟨[], by simp [deepcopyL]⟩
    | cons a rest =>
      have step : ∃ σ1 : Store, (∃ τ1 : Store, σ1 = σ ++ τ1) ∧
          (deepcopyL (fuel + 1) σ (a :: rest)).1 = (deepcopyL fuel σ1 rest).1 := by
        cases h : σ[a]? with
        | none =>
          exact ⟨σ ++ [.leaf .vnone], ⟨[.leaf .vnone], rfl⟩, by simp [deepcopyL, h]⟩
        | some nd =>
          cases nd with
          | leaf v => exact ⟨σ ++ [.leaf v], ⟨[.leaf v], rfl⟩, by simp [deepcopyL, h]⟩
          | dict es =>
            obtain ⟨τc, hc⟩ := ih σ (es.map Prod.snd)
            refine ⟨(deepcopyL fuel σ (es.map Prod.snd)).1
                ++ [.dict ((es.map Prod.fst).zip (deepcopyL fuel σ (es.map Prod.snd)).2)],
              ⟨τc ++ [.dict ((es.map Prod.fst).zip (deepcopyL fuel σ (es.map Prod.snd)).2)],
                by rw [hc, List.append_assoc]⟩, by simp [deepcopyL, h]⟩
          | arr xs =>
            obtain ⟨τc, hc⟩ := ih σ xs
            refine ⟨(deepcopyL fuel σ xs).1 ++ [.arr (deepcopyL fuel σ xs).2],
              ⟨τc ++ [.arr (deepcopyL fuel σ xs).2],
                by rw [hc, List.append_assoc]⟩, by simp [deepcopyL, h]⟩
      obtain ⟨σ1, ⟨τ1, h1⟩, hstep⟩ := step
      obtain ⟨τ2, h2⟩ := ih σ1 rest
      exact ⟨τ1 ++ τ2, by rw [hstep, h2, h1, List.append_assoc]⟩

theorem deepcopyL_len (fuel : Nat) (σ : Store) (as : List Nat) :
    σ.length ≤ (deepcopyL fuel σ as).1.length := by
  obtain ⟨τ, h⟩ := deepcopyL_ext fuel σ as
  rw [h]
  simp

/-- Deep copying agrees with the original store on all old addresses. -/
theorem deepcopyL_get_old (fuel : Nat) (σ : Store) (as : List Nat)
    (i : Nat) (hi : i < σ.length) : (deepcopyL fuel σ as).1[i]? = σ[i]? := by
  obtain ⟨τ, h⟩ := deepcopyL_ext fuel σ as
  rw [h, List.getElem?_append, if_pos hi]

/-- Every address handed back for the copied worklist is fresh: at or above
the old store's length. -/
theorem deepcopyL_roots_ge : ∀ (fuel : Nat) (σ : Store) (as : List Nat),
    ∀ b ∈ (deepcopyL fuel σ as).2, σ.length ≤ b := by
  intro fuel
  induction fuel with
  | zero =>
    intro σ as b hb
    simp only [deepcopyL] at hb
    obtain ⟨_, _, rfl⟩ := List.mem_map.mp hb
    exact le_refl _
  | succ fuel ih =>
    intro σ as b hb
    cases as with
    | nil => simp [deepcopyL] at hb
    | cons a rest =>
      have step : ∃ (σ1 : Store) (r : Nat), σ.length ≤ r ∧ σ.length ≤ σ1.length ∧
          (deepcopyL (fuel + 1) σ (a :: rest)).2 = r :: (deepcopyL fuel σ1 rest).2 := by
        cases h : σ[a]? with
        | none =>
          exact ⟨σ ++ [.leaf .vnone], σ.length, le_refl _, by simp, by simp [deepcopyL, h]⟩
        | some nd =>
          cases nd with
          | leaf v =>
            exact ⟨σ ++ [.leaf v], σ.length, le_refl _, by simp, by simp [deepcopyL, h]⟩
          | dict es =>
            refine ⟨(deepcopyL fuel σ (es.map Prod.snd)).1
                ++ [.dict ((es.map Prod.fst).zip (deepcopyL fuel σ (es.map Prod.snd)).2)],
              (deepcopyL fuel σ (es.map Prod.snd)).1.length, ?_, ?_, by simp [deepcopyL, h]⟩
            · exact deepcopyL_len fuel σ (es.map Prod.snd)
            · calc σ.length ≤ (deepcopyL fuel σ (es.map Prod.snd)).1.length :=
                  deepcopyL_len fuel σ (es.map Prod.snd)
                _ ≤ _ := by simp
          | arr xs =>
            refine ⟨(deepcopyL fuel σ xs).1 ++ [.arr (deepcopyL fuel σ xs).2],
              (deepcopyL fuel σ xs).1.length, deepcopyL_len fuel σ xs, ?_,
              by simp [deepcopyL, h]⟩
            calc σ.length ≤ (deepcopyL fuel σ xs).1.length := deepcopyL_len fuel σ xs
              _ ≤ _ := by simp
      obtain ⟨σ1, r, hr, hσ1, heq⟩ := step
      rw [heq] at hb
      rcases List.mem_cons.mp hb with rfl | hmem
      · exact hr
      · exact le_trans hσ1 (ih σ1 rest b hmem)

theorem closedAbove_append (L : Nat) (σ : Store) (nd : HNode)
    (hσ : ClosedAbove L σ) (hnd : ∀ a ∈ nd.children, L ≤ a) :
    ClosedAbove L (σ ++ [nd]) := by
  intro i n hget hLi a ha
  by_cases hi : i < σ.length
  · rw [List.getElem?_append, if_pos hi] at hget
    exact hσ i n hget hLi a ha
  · rw [List.getElem?_append, if_neg hi] at hget
    have hlen : i - σ.length < 1 := by
      have := (List.getElem?_eq_some.mp hget).1
      simpa using this
    have : i - σ.length = 0 := by omega
    rw [this] at hget
    simp only [List.getElem?_cons_zero, Option.some.injEq] at hget
    rw [← hget] at ha
    exact hnd a ha

/-- The region a deep copy allocates is closed: fresh nodes only point at
fresh nodes (or at addresses at or above the original length). -/
theorem deepcopyL_closedAbove : ∀ (fuel : Nat) (σ : Store) (as : List Nat) (L : Nat),
    L ≤ σ.length → ClosedAbove L σ → ClosedAbove L (deepcopyL fuel σ as).1 := by
  intro fuel
  induction fuel with
  | zero => intro σ as L _ hcl; simpa [deepcopyL] using hcl
  | succ fuel ih =>
    intro σ as L hL hcl
    cases as with
    | nil => simpa [deepcopyL] using hcl
    | cons a rest =>
      have step : ∃ σ1 : Store, ClosedAbove L σ1 ∧ L ≤ σ1.length ∧
          (deepcopyL (fuel + 1) σ (a :: rest)).1 = (deepcopyL fuel σ1 rest).1 := by
        cases h : σ[a]? with
        | none =>
          refine ⟨σ ++ [.leaf .vnone], closedAbove_append L σ _ hcl (by simp [HNode.children]),
            le_trans hL (by simp), by simp [deepcopyL, h]⟩
        | some nd =>
          cases nd with
          | leaf v =>
            refine ⟨σ ++ [.leaf v], closedAbove_append L σ _ hcl (by simp [HNode.children]),
              le_trans hL (by simp), by simp [deepcopyL, h]⟩
          | dict es =>
            refine ⟨(deepcopyL fuel σ (es.map Prod.snd)).1
                ++ [.dict ((es.map Prod.fst).zip (deepcopyL fuel σ (es.map Prod.snd)).2)],
              ?_, ?_, by simp [deepcopyL, h]⟩
            · refine closedAbove_append L _ _ (ih σ (es.map Prod.snd) L hL hcl) ?_
              intro b hb
              simp only [HNode.children] at hb
              obtain ⟨⟨k, b2⟩, hmem, rfl⟩ := List.mem_map.mp hb
              have hb2 := (List.of_mem_zip hmem).2
              exact le_trans hL (deepcopyL_roots_ge fuel σ (es.map Prod.snd) _ hb2)
            · exact le_trans hL (le_trans (deepcopyL_len fuel σ (es.map Prod.snd)) (by simp))
          | arr xs =>
            refine ⟨(deepcopyL fuel σ xs).1 ++ [.arr (deepcopyL fuel σ xs).2],
              ?_, ?_, by simp [deepcopyL, h]⟩
            · refine closedAbove_append L _ _ (ih σ xs L hL hcl) ?_
              intro b hb
              simp only [HNode.children] at hb
              exact le_trans hL (deepcopyL_roots_ge fuel σ xs _ hb)
            · exact le_trans hL (le_trans (deepcopyL_len fuel σ xs) (by simp))
      obtain ⟨σ1, hcl1, hL1, heq⟩ := step
      rw [heq]
      exact ih σ1 rest L hL1 hcl1

/-- Reading below `L` only depends on the store below `L`, provided the
store below `L` is well formed (children strictly decrease). -/
theorem readF_agree : ∀ (fuel : Nat) (σ σ2 : Store) (L : Nat),
    (∀ i, i < L → σ[i]? = σ2[i]?) →
    (∀ i nd, σ[i]? = some nd → i < L → ∀ a ∈ nd.children, a < i) →
    ∀ a, a < L → readF fuel σ a = readF fuel σ2 a := by
  intro fuel
  induction fuel with
  | zero => intros; rfl
  | succ fuel ih =>
    intro σ σ2 L hagree hwf a ha
    have hget : σ[a]? = σ2[a]? := hagree a ha
    simp only [readF]
    rw [← hget]
    cases h : σ[a]? with
    | none => rfl
    | some nd =>
      cases nd with
      | leaf v => rfl
      | dict es =>
        simp only [PyTree.dict.injEq]
        apply List.map_congr_left
        intro p hp
        have hchild : p.2 < a :=
          hwf a _ h ha p.2 (by simpa [HNode.children] using List.mem_map_of_mem Prod.snd hp)
        rw [ih σ σ2 L hagree hwf p.2 (lt_trans hchild ha)]
      | arr xs =>
        simp only [PyTree.arr.injEq]
        apply List.map_congr_left
        intro b hb
        have hchild : b < a := hwf a _ h ha b (by simpa [HNode.children] using hb)
        rw [ih σ σ2 L hagree hwf b (lt_trans hchild ha)]

/-- In a store whose region at or above `L` is closed, reachability from an
address at or above `L` stays at or above `L`. -/
theorem reach_ge (σ : Store) (L : Nat) (hcl : ClosedAbove L σ) :
    ∀ r b, ReachH σ r b → L ≤ r → L ≤ b := by
  intro r b h
  induction h with
  | refl a => exact id
  | step nd hget hmem _ ih =>
    intro hr
    exact ih (hcl _ _ hget hr _ hmem)

/-- Children of well-formed nodes decrease (getElem? form of `WFStore`). -/
theorem wfStore_children {σ : Store} (hwf : WFStore σ) {i : Nat} {nd : HNode}
    (h : σ[i]? = some nd) : ∀ a ∈ nd.children, a < i := by
  obtain ⟨hi, hv⟩ := List.getElem?_eq_some.mp h
  intro a ha
  apply hwf i hi
  rw [List.get_eq_getElem, hv]
  exact ha

theorem closedAbove_init (σ : Store) : ClosedAbove σ.length σ := by
  intro i nd hget hle
  have := (List.getElem?_eq_some.mp hget).1
  omega

theorem headD_ge (l : List Nat) (d L : Nat) (hl : ∀ b ∈ l, L ≤ b) (hd : L ≤ d) :
    L ≤ l.headD d := by
  cases l with
  | nil => exact hd
  | cons x xs => exact hl x (List.mem_cons_self _ _)

theorem deepcopy_store_ext (σ : Store) (a : Nat) (i : Nat) (hi : i < σ.length) :
    (deepcopy σ a).1[i]? = σ[i]? :=
  deepcopyL_get_old (σ.length + 1) σ [a] i hi

theorem deepcopy_len (σ : Store) (a : Nat) : σ.length ≤ (deepcopy σ a).1.length :=
  deepcopyL_len (σ.length + 1) σ [a]

theorem deepcopy_root_ge (σ : Store) (a : Nat) : σ.length ≤ (deepcopy σ a).2 :=
  headD_ge _ _ _ (deepcopyL_roots_ge (σ.length + 1) σ [a]) (le_refl _)

theorem deepcopy_closedAbove (σ : Store) (a : Nat) (L : Nat)
    (hL : L ≤ σ.length) (hcl : ClosedAbove L σ) : ClosedAbove L (deepcopy σ a).1 :=
  deepcopyL_closedAbove (σ.length + 1) σ [a] L hL hcl

/-- C9: `get_company_config` and the two configuration objects
`create_scraper` passes to the scraper constructor are deep copies.  The
calls never change the factory's root table; every stored configuration
value reads back unchanged after the calls; nothing reachable from a
returned copy root lies in the originally stored region; and an arbitrary
caller mutation at any address reachable from a returned copy leaves every
stored configuration value — hence what any later `get_company_config` or
`create_scraper` call observes — exactly as originally loaded. -/
theorem factory_configs_deep_copied (hf : HFactory) (key : String)
    (hf1 : HFactory) (rc : Nat) (hf2 : HFactory) (rc2 rg : Nat)
    (hwf : WFStore hf.store)
    (hcall1 : getCompanyConfigH hf key = some (hf1, rc))
    (hcall2 : createScraperCopiesH hf key = some (hf2, rc2, rg)) :
    (hf1.company_roots = hf.company_roots ∧ hf1.global_root = hf.global_root
      ∧ hf2.company_roots = hf.company_roots ∧ hf2.global_root = hf.global_root
      ∧ rc2 = rc)
    ∧ (∀ r, r < hf.store.length → ∀ fuel,
        readF fuel hf1.store r = readF fuel hf.store r
        ∧ readF fuel hf2.store r = readF fuel hf.store r)
    ∧ (∀ b, ReachH hf1.store rc b → hf.store.length ≤ b)
    ∧ (∀ b, ReachH hf2.store rc2 b ∨ ReachH hf2.store rg b → hf.store.length ≤ b)
    ∧ (∀ m nd, ReachH hf1.store rc m →
        ∀ r, r < hf.store.length → ∀ fuel,
          readF fuel (hf1.store.set m nd) r = readF fuel hf.store r)
    ∧ (∀ m nd, ReachH hf2.store rc2 m ∨ ReachH hf2.store rg m →
        ∀ r, r < hf.store.length → ∀ fuel,
          readF fuel (hf2.store.set m nd) r = readF fuel hf.store r) := by
  -- Unpack the two calls.
  cases hl : assocLookup (pyLowerS key) hf.company_roots with
  | none => rw [getCompanyConfigH, hl] at hcall1; exact absurd hcall1 (by simp)
  | some a =>
  rw [getCompanyConfigH, hl] at hcall1
  simp only [Option.some.injEq, Prod.mk.injEq] at hcall1
  obtain ⟨hhf1, hrc⟩ := hcall1
  rw [createScraperCopiesH, getCompanyConfigH, hl] at hcall2
  simp only [Option.some.injEq, Prod.mk.injEq] at hcall2
  obtain ⟨hhf2, hrc2, hrg⟩ := hcall2
  subst hhf1 hrc hhf2 hrc2 hrg
  set σ0 := hf.store with hσ0
  set L0 := σ0.length with hL0
  set σ1 := (deepcopy σ0 a).1 with hσ1
  set r1 := (deepcopy σ0 a).2 with hr1
  set σ2 := (deepcopy σ1 hf.global_root).1 with hσ2
  set r2 := (deepcopy σ1 hf.global_root).2 with hr2
  -- Store agreement on the old region.
  have hag1 : ∀ i, i < L0 → σ1[i]? = σ0[i]? := fun i hi => deepcopy_store_ext σ0 a i hi
  have hlen1 : L0 ≤ σ1.length := deepcopy_len σ0 a
  have hag2 : ∀ i, i < L0 → σ2[i]? = σ0[i]? := fun i hi =>
    (deepcopy_store_ext σ1 hf.global_root i (lt_of_lt_of_le hi hlen1)).trans (hag1 i hi)
  -- Closure of the fresh regions.
  have hcl1 : ClosedAbove L0 σ1 :=
    deepcopy_closedAbove σ0 a L0 (le_refl _) (closedAbove_init σ0)
  have hcl2 : ClosedAbove L0 σ2 :=
    deepcopy_closedAbove σ1 hf.global_root L0 hlen1 hcl1
  have hr1ge : L0 ≤ r1 := deepcopy_root_ge σ0 a
  have hr2ge : L0 ≤ r2 := le_trans hlen1 (deepcopy_root_ge σ1 hf.global_root)
  -- Children of old nodes decrease.
  have hwf0 : ∀ i nd, σ0[i]? = some nd → i < L0 → ∀ b ∈ nd.children, b < i :=
    fun i nd h _ => wfStore_children hwf h
  -- Reads below the old length agree between any store matching σ0 there.
  have hread : ∀ (σ2' : Store), (∀ i, i < L0 → σ2'[i]? = σ0[i]?) →
      ∀ r, r < L0 → ∀ fuel, readF fuel σ2' r = readF fuel σ0 r := by
    intro σ2' hagr r hr fuel
    exact (readF_agree fuel σ0 σ2' L0 (fun i hi => (hagr i hi).symm) hwf0 r hr).symm
  refine ⟨⟨rfl, rfl, rfl, rfl, rfl⟩, ?_, ?_, ?_, ?_, ?_⟩
  · intro r hr fuel
    exact ⟨hread σ1 hag1 r hr fuel, hread σ2 hag2 r hr fuel⟩
  · intro b hb
    exact reach_ge σ1 L0 hcl1 r1 b hb hr1ge
  · rintro b (hb | hb)
    · exact reach_ge σ2 L0 hcl2 r1 b hb hr1ge
    · exact reach_ge σ2 L0 hcl2 r2 b hb hr2ge
  · intro m nd hm r hr fuel
    have hmge : L0 ≤ m := reach_ge σ1 L0 hcl1 r1 m hm hr1ge
    refine hread (σ1.set m nd) ?_ r hr fuel
    intro i hi
    rw [List.getElem?_set_ne (by omega : m ≠ i)]
    exact hag1 i hi
  · intro m nd hm r hr fuel
    have hmge : L0 ≤ m := by
      rcases hm with hm | hm
      · exact reach_ge σ2 L0 hcl2 r1 m hm hr1ge
      · exact reach_ge σ2 L0 hcl2 r2 m hm hr2ge
    refine hread (σ2.set m nd) ?_ r hr fuel
    intro i hi
    rw [List.getElem?_set_ne (by omega : m ≠ i)]
    exact hag2 i hi

/-- Witness for C9 on a three-node configuration heap: after both copies,
the stored company configuration at address 2 reads back unchanged. -/
theorem factory_configs_deep_copied_witness :
    readF 6 ([HNode.leaf (.vstr "https://careers.meta.com"),
        HNode.leaf (.vbool true),
        HNode.dict [("careers_url", 0), ("enabled", 1)],
        HNode.leaf (.vstr "https://careers.meta.com"),
        HNode.leaf (.vbool true),
        HNode.dict [("careers_url", 3), ("enabled", 4)],
        HNode.leaf (.vstr "https://careers.meta.com")] : Store) 2
      = readF 6 ([HNode.leaf (.vstr "https://careers.meta.com"),
        HNode.leaf (.vbool true),
        HNode.dict [("careers_url", 0), ("enabled", 1)]] : Store) 2 := by
  have h := factory_configs_deep_copied
    ⟨[.leaf (.vstr "https://careers.meta.com"), .leaf (.vbool true),
      .dict [("careers_url", 0), ("enabled", 1)]], [("meta", 2)], 0⟩
    "Meta"
    ⟨[.leaf (.vstr "https://careers.meta.com"), .leaf (.vbool true),
      .dict [("careers_url", 0), ("enabled", 1)],
      .leaf (.vstr "https://careers.meta.com"), .leaf (.vbool true),
      .dict [("careers_url", 3), ("enabled", 4)]], [("meta", 2)], 0⟩
    5
    ⟨[.leaf (.vstr "https://careers.meta.com"), .leaf (.vbool true),
      .dict [("careers_url", 0), ("enabled", 1)],
      .leaf (.vstr "https://careers.meta.com"), .leaf (.vbool true),
      .dict [("careers_url", 3), ("enabled", 4)],
      .leaf (.vstr "https://careers.meta.com")], [("meta", 2)], 0⟩
    5 6 (by decide) (by decide) (by decide)
  exact (h.2.1 2 (by decide) 6).2

end JobScraper
